import Mathlib

/-!
Verification of the argument-resolution core of a grep-like CLI tool
(`src/args.rs`).  The data model (`Output`, `Options`, `Args`, `Command`,
`Error`) and the configuration assembler `build_args` are translated
directly from the Rust source.  The schema-driven token parser (the part
the source delegates to the `clap` library, configured in `build_app`)
is modelled from the spec: a left-to-right resolver over the declared
schema with last-wins override groups, help/version flags, and the two
positionals (required `pattern`, then `files`).
-/

deriving instance DecidableEq for Except

namespace Bgrep

/-- `enum Output { FileName, Bytes, Offset }` from the source. -/
inductive Output
  | FileName
  | Bytes
  | Offset
deriving DecidableEq

/-- `impl Default for Output` returns `Output::FileName` in the source. -/
def Output.default : Output := Output.FileName

/-- `struct Options` from the source. -/
structure Options where
  inverse : Bool
  case_insensitive : Bool
  output : Output
deriving DecidableEq

/-- `struct Args` from the source (`Box<[String]>` becomes a list). -/
structure Args where
  options : Options
  pattern : String
  files : List String
deriving DecidableEq

/-- `enum Command { Help(String), Version(String), Grep(Args) }` from the source. -/
inductive Command
  | Help (text : String)
  | Version (text : String)
  | Grep (args : Args)
deriving DecidableEq

/-- `struct Error { message: String }` from the source. -/
structure Error where
  message : String
deriving DecidableEq

/-- The values `build_args` reads out of clap's `ArgMatches`:
`value_of("pattern")`, `values_of("files")`, and `is_present` for each of
the six declared flags. -/
structure ArgMatches where
  pattern : Option String
  files : Option (List String)
  invert_match : Bool
  ignore_case : Bool
  only_matching : Bool
  byte_offset : Bool
  files_with_matches : Bool
  files_without_matches : Bool
deriving DecidableEq

/-- `build_args` from the source.  The `.expect("<pattern> not in
ArgMatches")` panic on a missing pattern is modelled as `none`; every
other path produces `some`.  The output-mode tuple match and the
`flag("invert-match") ^ flag("files-without-matches")` XOR are verbatim. -/
def build_args (args : ArgMatches) : Option Args :=
  match args.pattern with
  | none => none
  | some pattern =>
    let files : List String :=
      match args.files with
      | none => ["-"]
      | some fs => fs
    let output_flags :=
      (args.only_matching, args.byte_offset,
       args.files_with_matches, args.files_without_matches)
    let output : Output :=
      match output_flags with
      | (true, _, _, _) => Output.Bytes
      | (_, true, _, _) => Output.Offset
      | (_, _, true, _) => Output.FileName
      | (_, _, _, true) => Output.FileName
      | (_, _, _, _)    => Output.default
    some {
      options := {
        inverse := Bool.xor args.invert_match args.files_without_matches
        case_insensitive := args.ignore_case
        output := output
      }
      pattern := pattern
      files := files
    }

/-! ## The schema-driven token parser

Modelled from the spec: the generic parsing engine (the `clap` library's
`get_matches_safe`) is not part of this repository; only its schema
configuration (`build_app`) is.  The model below follows the spec's
description of the resolver: recognized flags with short/long spellings,
a last-wins override group among the four output flags (the
`overrides_with_all` lists of `build_app` are transcribed verbatim in
`clearOverridden`), cardinality 0-or-1 for each flag (a repeat that is
not superseded is a bad-arity parse error), `-h`/`--help` and
`-V`/`--version` auto-flags that short-circuit to help/version text, and
positional operands collected in order (first is `pattern`, rest are
`files`). -/

/-- The six flags declared in `build_app`. -/
inductive Flag
  | invertMatch
  | ignoreCase
  | onlyMatching
  | byteOffset
  | filesWithMatches
  | filesWithoutMatches
deriving DecidableEq

/-- Presence booleans for the six declared flags. -/
structure FlagSet where
  invert_match : Bool
  ignore_case : Bool
  only_matching : Bool
  byte_offset : Bool
  files_with_matches : Bool
  files_without_matches : Bool
deriving DecidableEq

def FlagSet.empty : FlagSet := ⟨false, false, false, false, false, false⟩

def getFlag (f : Flag) (s : FlagSet) : Bool :=
  match f with
  | .invertMatch => s.invert_match
  | .ignoreCase => s.ignore_case
  | .onlyMatching => s.only_matching
  | .byteOffset => s.byte_offset
  | .filesWithMatches => s.files_with_matches
  | .filesWithoutMatches => s.files_without_matches

def setFlag (f : Flag) (b : Bool) (s : FlagSet) : FlagSet :=
  match f with
  | .invertMatch => { s with invert_match := b }
  | .ignoreCase => { s with ignore_case := b }
  | .onlyMatching => { s with only_matching := b }
  | .byteOffset => { s with byte_offset := b }
  | .filesWithMatches => { s with files_with_matches := b }
  | .filesWithoutMatches => { s with files_without_matches := b }

/-- The four output flags: the mutually-overriding group of `build_app`. -/
def outputGroup : Flag → Bool
  | .onlyMatching => true
  | .byteOffset => true
  | .filesWithMatches => true
  | .filesWithoutMatches => true
  | _ => false

/-- The `overrides_with_all` lists of `build_app`: seeing an output-group
flag clears the presence of the other three group members. -/
def clearOverridden (f : Flag) (s : FlagSet) : FlagSet :=
  match f with
  | .onlyMatching =>
      { s with byte_offset := false, files_with_matches := false,
               files_without_matches := false }
  | .byteOffset =>
      { s with only_matching := false, files_with_matches := false,
               files_without_matches := false }
  | .filesWithMatches =>
      { s with only_matching := false, byte_offset := false,
               files_without_matches := false }
  | .filesWithoutMatches =>
      { s with only_matching := false, byte_offset := false,
               files_with_matches := false }
  | _ => s

/-- Record one occurrence of flag `f`: first apply its override list,
then fail (`none`, a bad-arity error) if `f` itself is still present,
else mark it present. -/
def applyFlag (f : Flag) (s : FlagSet) : Option FlagSet :=
  let s' := clearOverridden f s
  if getFlag f s' then none else some (setFlag f true s')

/-- What a single short character or long name denotes: a declared flag,
or one of the auto help/version flags. -/
inductive Item
  | reg (f : Flag)
  | helpFlag
  | versionFlag
deriving DecidableEq

/-- Short spellings declared in `build_app`, plus clap's auto `-h`/`-V`. -/
def shortItem : Char → Option Item
  | 'v' => some (.reg .invertMatch)
  | 'i' => some (.reg .ignoreCase)
  | 'o' => some (.reg .onlyMatching)
  | 'b' => some (.reg .byteOffset)
  | 'l' => some (.reg .filesWithMatches)
  | 'L' => some (.reg .filesWithoutMatches)
  | 'h' => some .helpFlag
  | 'V' => some .versionFlag
  | _ => none

/-- Long spellings declared in `build_app`, plus clap's auto
`--help`/`--version`. -/
def longItem : String → Option Item
  | "invert-match" => some (.reg .invertMatch)
  | "ignore-case" => some (.reg .ignoreCase)
  | "only-matching" => some (.reg .onlyMatching)
  | "byte-offset" => some (.reg .byteOffset)
  | "files-with-matches" => some (.reg .filesWithMatches)
  | "files-without-matches" => some (.reg .filesWithoutMatches)
  | "help" => some .helpFlag
  | "version" => some .versionFlag
  | _ => none

/-- Early exits of the resolver: help, version, or a parse error. -/
inductive Halt
  | help
  | version
  | fail (message : String)
deriving DecidableEq

/-- Modelled from the spec: rendered usage text is an opaque string. -/
def usageText : String := "Usage: bgrep [FLAGS] <pattern> [<files>...]"

/-- Modelled from the spec: rendered version text is an opaque string. -/
def versionText : String := "bgrep 0.1.0"

def unknownMsg (tok : String) : String :=
  "Found argument which was not expected: " ++ tok

def repeatMsg : String :=
  "The argument was provided more than once"

def missingPatternMsg : String :=
  "The following required argument was not provided: pattern"

def applyItem (it : Item) (s : FlagSet) : Except Halt FlagSet :=
  match it with
  | .helpFlag => .error .help
  | .versionFlag => .error .version
  | .reg f =>
    match applyFlag f s with
    | none => .error (.fail repeatMsg)
    | some s' => .ok s'

/-- Process the characters of a short-flag cluster (e.g. `-ob`) left to
right. -/
def applyShorts : List Char → FlagSet → Except Halt FlagSet
  | [], s => .ok s
  | c :: cs, s =>
    match shortItem c with
    | none => .error (.fail (unknownMsg (String.mk ['-', c])))
    | some it =>
      match applyItem it s with
      | .error h => .error h
      | .ok s' => applyShorts cs s'

/-- Resolver state: flag presence plus the positional operands seen so
far, in order. -/
structure ParseState where
  flags : FlagSet
  positionals : List String
deriving DecidableEq

def initState : ParseState := ⟨FlagSet.empty, []⟩

/-- A token is a positional operand unless it starts with `-` and has at
least one more character (a lone `-` is the stdin sentinel operand). -/
def isPositional (tok : String) : Bool :=
  match tok.toList with
  | '-' :: _ :: _ => false
  | _ => true

/-- Resolve a flag token (one that is not a positional operand): a
`--`-prefixed token is a long spelling, any other `-`-prefixed token is
a cluster of short spellings processed left to right. -/
def flagToken (tok : String) (fl : FlagSet) : Except Halt FlagSet :=
  match tok.toList with
  | '-' :: '-' :: rest =>
    match longItem (String.mk rest) with
    | none => .error (.fail (unknownMsg tok))
    | some it => applyItem it fl
  | '-' :: c :: cs => applyShorts (c :: cs) fl
  | _ => .ok fl

def processToken (s : ParseState) (tok : String) : Except Halt ParseState :=
  if isPositional tok then .ok ⟨s.flags, s.positionals ++ [tok]⟩
  else
    match flagToken tok s.flags with
    | .error h => .error h
    | .ok fl => .ok ⟨fl, s.positionals⟩

def runTokens : List String → ParseState → Except Halt ParseState
  | [], s => .ok s
  | t :: ts, s =>
    match processToken s t with
    | .error h => .error h
    | .ok s' => runTokens ts s'

/-- The resolver (`app.get_matches_safe()` under the schema of
`build_app`, modelled from the spec): run the tokens, then require the
`pattern` positional; the remaining positionals are the `files` values
(`values_of` is `none` when no file operand was supplied). -/
def get_matches_safe (tokens : List String) : Except Halt ArgMatches :=
  match runTokens tokens initState with
  | .error h => .error h
  | .ok s =>
    match s.positionals with
    | [] => .error (.fail missingPatternMsg)
    | p :: rest =>
      .ok ⟨some p, if rest = [] then none else some rest,
           s.flags.invert_match, s.flags.ignore_case,
           s.flags.only_matching, s.flags.byte_offset,
           s.flags.files_with_matches, s.flags.files_without_matches⟩

/-- `parse` from the source, over an explicit token list: a successful
match is assembled by `build_args` into `Command::Grep`; the
`HelpDisplayed` and `VersionDisplayed` clap errors become `Help` and
`Version`; every other clap error becomes `Error`.  The `none` branch of
`build_args` (the `.expect` panic) is surfaced as an `Error` carrying
the panic message; it is proved unreachable below. -/
def parse (tokens : List String) : Except Error Command :=
  match get_matches_safe tokens with
  | .ok m =>
    match build_args m with
    | some a => .ok (.Grep a)
    | none => .error ⟨"<pattern> not in ArgMatches"⟩
  | .error .help => .ok (.Help usageText)
  | .error .version => .ok (.Version versionText)
  | .error (.fail msg) => .error ⟨msg⟩

/-! ## Helper lemmas about the resolver -/

theorem applyFlag_eq_some (f : Flag) (s s₁ : FlagSet)
    (h : applyFlag f s = some s₁) : s₁ = setFlag f true (clearOverridden f s) := by
  simp only [applyFlag] at h
  split at h
  · exact Option.noConfusion h
  · exact (Option.some.inj h).symm

theorem runTokens_append (xs : List String) :
    ∀ (ys : List String) (s s' : ParseState), runTokens xs s = .ok s' →
      runTokens (xs ++ ys) s = runTokens ys s' := by
  induction xs with
  | nil =>
    intro ys s s' h
    simp only [runTokens] at h
    cases h
    rfl
  | cons x xs ih =>
    intro ys s s' h
    simp only [List.cons_append, runTokens] at h ⊢
    cases hp : processToken s x with
    | error e => rw [hp] at h; exact Except.noConfusion h
    | ok s₁ => simp only [hp] at h ⊢; exact ih ys s₁ s' h

theorem processToken_positionals (s s' : ParseState) (t : String)
    (h : processToken s t = .ok s') :
    s'.positionals = s.positionals ++ (if isPositional t then [t] else []) := by
  simp only [processToken] at h
  split at h
  · cases h
    simp [*]
  · rename_i hpos
    split at h
    · exact Except.noConfusion h
    · cases h
      simp [hpos]

theorem runTokens_positionals (ts : List String) :
    ∀ (s s' : ParseState), runTokens ts s = .ok s' →
      s'.positionals = s.positionals ++ ts.filter isPositional := by
  induction ts with
  | nil =>
    intro s s' h
    simp only [runTokens] at h
    cases h
    simp
  | cons t ts ih =>
    intro s s' h
    simp only [runTokens] at h
    cases hp : processToken s t with
    | error e => rw [hp] at h; exact Except.noConfusion h
    | ok s₁ =>
      rw [hp] at h
      have h1 := processToken_positionals s s₁ t hp
      have h2 := ih s₁ s' h
      rw [h2, h1]
      by_cases hpos : isPositional t <;> simp [hpos, List.filter_cons]

theorem runTokens_all_positional (ts : List String) :
    ∀ s : ParseState, (∀ t ∈ ts, isPositional t = true) →
      runTokens ts s = .ok ⟨s.flags, s.positionals ++ ts⟩ := by
  induction ts with
  | nil => intro s h; simp [runTokens]
  | cons t ts ih =>
    intro s h
    have ht : isPositional t = true := h t (List.mem_cons_self t ts)
    simp only [runTokens, processToken, ht, if_true]
    rw [ih ⟨s.flags, s.positionals ++ [t]⟩ (fun u hu => h u (List.mem_cons_of_mem t hu))]
    simp

/-- Whenever `parse` produces a `Grep` command, the pattern is the first
positional operand of the token list and the files are the remaining
operands, defaulting to `["-"]` when there are none. -/
theorem parse_grep_characterization (tokens : List String) (a : Args)
    (h : parse tokens = .ok (.Grep a)) :
    ∃ rest, tokens.filter isPositional = a.pattern :: rest ∧
      a.files = (if rest = [] then ["-"] else rest) := by
  cases hg : get_matches_safe tokens with
  | error e =>
    cases e <;> simp [parse, hg] at h
  | ok m =>
    cases hb : build_args m with
    | none => simp [parse, hg, hb] at h
    | some a' =>
      simp only [parse, hg, hb, Except.ok.injEq, Command.Grep.injEq] at h
      subst h
      unfold get_matches_safe at hg
      cases hr : runTokens tokens initState with
      | error e2 => rw [hr] at hg; exact Except.noConfusion hg
      | ok s =>
        simp only [hr] at hg
        cases hps : s.positionals with
        | nil => simp only [hps] at hg; exact Except.noConfusion hg
        | cons p rest =>
          simp only [hps, Except.ok.injEq] at hg
          have hfilter : p :: rest = tokens.filter isPositional := by
            have hpos := runTokens_positionals tokens initState s hr
            rw [hps] at hpos
            simpa [initState] using hpos
          subst hg
          simp only [build_args, Option.some.injEq] at hb
          subst hb
          refine ⟨rest, hfilter.symm, ?_⟩
          by_cases hre : rest = [] <;> simp [hre]

/-! ## Claim theorems -/

/-- C1: for every successfully assembled invocation, the `inverse` field
is the exclusive-or of the invert-match presence and the
files-without-matches presence; concretely, neither flag gives `false`,
exactly one gives `true`, and both together cancel back to `false`. -/
theorem inverse_is_xor_of_flags :
    (∀ (m : ArgMatches) (a : Args), build_args m = some a →
       a.options.inverse = Bool.xor m.invert_match m.files_without_matches) ∧
    parse ["p"] = .ok (.Grep ⟨⟨false, false, .FileName⟩, "p", ["-"]⟩) ∧
    parse ["-v", "p"] = .ok (.Grep ⟨⟨true, false, .FileName⟩, "p", ["-"]⟩) ∧
    parse ["-L", "p"] = .ok (.Grep ⟨⟨true, false, .FileName⟩, "p", ["-"]⟩) ∧
    parse ["-v", "-L", "p"] = .ok (.Grep ⟨⟨false, false, .FileName⟩, "p", ["-"]⟩) := by
  refine ⟨?_, by decide, by decide, by decide, by decide⟩
  intro m a h
  obtain ⟨mp, mf, v, i, o, b, l, L⟩ := m
  cases mp with
  | none => simp [build_args] at h
  | some p =>
    simp only [build_args, Option.some.injEq] at h
    subst h
    rfl

/-- C1 witness: instantiating the general conjunct at a concrete
`ArgMatches` with only `-v` present. -/
theorem inverse_is_xor_of_flags_witness :
    (Args.mk ⟨true, false, .FileName⟩ "p" ["-"]).options.inverse = Bool.xor true false :=
  inverse_is_xor_of_flags.1
    (ArgMatches.mk (some "p") none true false false false false false) _ (by decide)

/-- C2: the output mode is selected by the ordered priority list
only-matching (`Bytes`, the spec's MatchedBytes), then byte-offset
(`Offset`, the spec's ByteOffset), then files-with-matches, then
files-without-matches, then the `FileName` default; exactly one mode
results for every combination of the four presence booleans. -/
theorem output_mode_priority :
    ∀ (m : ArgMatches) (a : Args), build_args m = some a →
      a.options.output =
        (if m.only_matching then Output.Bytes
         else if m.byte_offset then Output.Offset
         else if m.files_with_matches then Output.FileName
         else if m.files_without_matches then Output.FileName
         else Output.FileName) := by
  intro m a h
  obtain ⟨mp, mf, v, i, o, b, l, L⟩ := m
  cases mp with
  | none => simp [build_args] at h
  | some p =>
    simp only [build_args, Option.some.injEq] at h
    subst h
    cases o <;> cases b <;> cases l <;> cases L <;> rfl

/-- C2 witness: instantiating at a concrete `ArgMatches` with only
byte-offset present. -/
theorem output_mode_priority_witness :
    (Args.mk ⟨false, false, .Offset⟩ "p" ["-"]).options.output = Output.Offset :=
  output_mode_priority
    (ArgMatches.mk (some "p") none false false false true false false) _ (by decide)

/-- C7: the configuration assembler cannot fail: whenever the pattern
value is present, `build_args` completes (the `.expect` is unreachable),
and every `ArgMatches` the resolver hands over does carry a pattern. -/
theorem build_args_total :
    (∀ m : ArgMatches, m.pattern.isSome = true → (build_args m).isSome = true) ∧
    (∀ (tokens : List String) (m : ArgMatches),
       get_matches_safe tokens = .ok m → m.pattern.isSome = true) := by
  constructor
  · intro m h
    obtain ⟨mp, mf, v, i, o, b, l, L⟩ := m
    cases mp with
    | none => simp at h
    | some p => simp [build_args]
  · intro tokens m hg
    unfold get_matches_safe at hg
    cases hr : runTokens tokens initState with
    | error e => rw [hr] at hg; exact Except.noConfusion hg
    | ok s =>
      simp only [hr] at hg
      cases hps : s.positionals with
      | nil => simp only [hps] at hg; exact Except.noConfusion hg
      | cons p rest =>
        simp only [hps, Except.ok.injEq] at hg
        subst hg
        rfl

/-- C7 witness: the assembler succeeds on a concrete `ArgMatches`
carrying a pattern. -/
theorem build_args_total_witness :
    (build_args (ArgMatches.mk (some "p") none false false false false false false)).isSome
      = true :=
  build_args_total.1 _ (by decide)

/-- C3: when two flags of the output override group both appear, the
later one silently supersedes the earlier one instead of being an error:
recording the later flag always succeeds and leaves exactly that flag
present among the group.  Concretely, `-ob` yields `Offset` (the spec's
ByteOffset) because the later `-b` overrides the earlier `-o`, and the
same holds with long spellings and with mixed spellings. -/
theorem override_last_wins :
    (∀ (s : FlagSet) (f g : Flag), outputGroup f = true → outputGroup g = true →
       f ≠ g → ∀ s₁, applyFlag f s = some s₁ →
         ∃ s₂, applyFlag g s₁ = some s₂ ∧ getFlag g s₂ = true ∧
           ∀ x, outputGroup x = true → x ≠ g → getFlag x s₂ = false) ∧
    parse ["-ob", "foo", "x.txt"] =
      .ok (.Grep ⟨⟨false, false, .Offset⟩, "foo", ["x.txt"]⟩) ∧
    parse ["--only-matching", "--byte-offset", "foo"] =
      .ok (.Grep ⟨⟨false, false, .Offset⟩, "foo", ["-"]⟩) ∧
    parse ["-o", "--byte-offset", "foo"] =
      .ok (.Grep ⟨⟨false, false, .Offset⟩, "foo", ["-"]⟩) := by
  refine ⟨?_, by decide, by decide, by decide⟩
  intro s f g hf hg hne s₁ h1
  have hs₁ := applyFlag_eq_some f s s₁ h1
  subst hs₁
  obtain ⟨v, i, o, b, l, L⟩ := s
  cases f <;> cases g <;>
    first
      | exact absurd rfl hne
      | exact absurd hf (by decide)
      | exact absurd hg (by decide)
      | exact ⟨_, rfl, rfl, by
          intro x hx hxg
          cases x <;> simp_all [outputGroup, getFlag, setFlag, clearOverridden]⟩

/-- C3 witness: instantiating the general conjunct at the empty flag
set with `-o` recorded before `-b`. -/
theorem override_last_wins_witness :
    ∃ s₂, applyFlag Flag.byteOffset
        (setFlag Flag.onlyMatching true (clearOverridden Flag.onlyMatching FlagSet.empty))
          = some s₂ ∧
      getFlag Flag.byteOffset s₂ = true ∧
      ∀ x, outputGroup x = true → x ≠ Flag.byteOffset → getFlag x s₂ = false :=
  override_last_wins.1 FlagSet.empty Flag.onlyMatching Flag.byteOffset
    (by decide) (by decide) (by decide) _ (by decide)

/-- C9: an output-group flag other than `-L` clears the recorded
presence of files-without-matches, and an `ArgMatches` in which that
presence is cleared yields `inverse` equal to the invert-match presence
alone; concretely `-L -o pattern` parses to a non-inverted `Bytes`
(MatchedBytes) request. -/
theorem override_removes_L_from_inverse :
    (∀ (m : ArgMatches) (a : Args), build_args m = some a →
       m.files_without_matches = false → a.options.inverse = m.invert_match) ∧
    (∀ (s : FlagSet) (g : Flag), outputGroup g = true → g ≠ Flag.filesWithoutMatches →
       ∀ s', applyFlag g s = some s' → s'.files_without_matches = false) ∧
    parse ["-L", "-o", "p"] = .ok (.Grep ⟨⟨false, false, .Bytes⟩, "p", ["-"]⟩) := by
  refine ⟨?_, ?_, by decide⟩
  · intro m a h hL
    obtain ⟨mp, mf, v, i, o, b, l, L⟩ := m
    cases mp with
    | none => simp [build_args] at h
    | some p =>
      simp only [build_args, Option.some.injEq] at h
      subst h
      simp only at hL
      subst hL
      simp
  · intro s g hg hne s' h
    have hs' := applyFlag_eq_some g s s' h
    subst hs'
    obtain ⟨v, i, o, b, l, L⟩ := s
    cases g <;>
      first
        | exact absurd hg (by decide)
        | exact absurd rfl hne
        | rfl

/-- C9 witness: instantiating the first conjunct at a concrete
`ArgMatches` with `-v` present and files-without-matches cleared. -/
theorem override_removes_L_from_inverse_witness :
    (Args.mk ⟨true, false, .FileName⟩ "p" ["-"]).options.inverse = true :=
  override_removes_L_from_inverse.1
    (ArgMatches.mk (some "p") none true false false false false false) _
    (by decide) (by decide)

/-- C10: supplying `-L` is equivalent to supplying `-v -l` in its place:
for every pattern operand and file-operand list, both token lists parse
to the same command. -/
theorem L_equiv_vl :
    ∀ (p : String) (fs : List String), isPositional p = true →
      (∀ f ∈ fs, isPositional f = true) →
      parse ("-L" :: p :: fs) = parse ("-v" :: "-l" :: p :: fs) := by
  intro p fs hp hfs
  have hops : ∀ t ∈ p :: fs, isPositional t = true := by
    intro t ht
    rcases List.mem_cons.mp ht with h | h
    · subst h; exact hp
    · exact hfs t h
  have hL : runTokens ("-L" :: p :: fs) initState =
      .ok ⟨⟨false, false, false, false, false, true⟩, p :: fs⟩ := by
    have e1 : processToken initState "-L" =
        .ok ⟨⟨false, false, false, false, false, true⟩, []⟩ := by decide
    simp only [runTokens, e1]
    simpa using
      runTokens_all_positional (p :: fs) ⟨⟨false, false, false, false, false, true⟩, []⟩ hops
  have hvl : runTokens ("-v" :: "-l" :: p :: fs) initState =
      .ok ⟨⟨true, false, false, false, true, false⟩, p :: fs⟩ := by
    have e1 : processToken initState "-v" =
        .ok ⟨⟨true, false, false, false, false, false⟩, []⟩ := by decide
    have e2 : processToken ⟨⟨true, false, false, false, false, false⟩, []⟩ "-l" =
        .ok ⟨⟨true, false, false, false, true, false⟩, []⟩ := by decide
    simp only [runTokens, e1, e2]
    simpa using
      runTokens_all_positional (p :: fs) ⟨⟨true, false, false, false, true, false⟩, []⟩ hops
  simp only [parse, get_matches_safe, hL, hvl, build_args]
  rfl

/-- C10 witness: the equivalence at the concrete invocation
`-L foo a.txt`. -/
theorem L_equiv_vl_witness :
    parse ["-L", "foo", "a.txt"] = parse ["-v", "-l", "foo", "a.txt"] :=
  L_equiv_vl "foo" ["a.txt"] (by decide) (by decide)

/-- C4: for every successfully parsed invocation, zero file operands
yield the single-element files sequence `["-"]`, and N ≥ 1 operands
yield exactly those operands in order; hence `files` is never empty. -/
theorem files_default_and_order :
    ∀ (tokens : List String) (a : Args), parse tokens = .ok (.Grep a) →
      ∃ rest, tokens.filter isPositional = a.pattern :: rest ∧
        (rest = [] → a.files = ["-"]) ∧
        (rest ≠ [] → a.files = rest) ∧
        a.files ≠ [] := by
  intro tokens a h
  obtain ⟨rest, h1, h2⟩ := parse_grep_characterization tokens a h
  by_cases hre : rest = [] <;> simp [hre] at h2 <;> simp [h1, h2, hre]

/-- C4 witness: the characterization at the concrete invocation `foo`
with zero file operands. -/
theorem files_default_and_order_witness :
    ∃ rest, (["foo"].filter isPositional) =
        (Args.mk ⟨false, false, .FileName⟩ "foo" ["-"]).pattern :: rest ∧
      (rest = [] → (Args.mk ⟨false, false, .FileName⟩ "foo" ["-"]).files = ["-"]) ∧
      (rest ≠ [] → (Args.mk ⟨false, false, .FileName⟩ "foo" ["-"]).files = rest) ∧
      (Args.mk ⟨false, false, .FileName⟩ "foo" ["-"]).files ≠ [] :=
  files_default_and_order ["foo"] _ (by decide)

/-- C5 counterexample: an explicitly supplied empty-string operand is a
valid value for the required pattern positional, so the parser does
return a `Grep` request whose pattern is the empty string. -/
theorem nonempty_pattern_counterexample :
    parse [""] = .ok (.Grep ⟨⟨false, false, .FileName⟩, "", ["-"]⟩) ∧
    (Args.mk ⟨false, false, .FileName⟩ "" ["-"]).pattern = "" :=
  ⟨by decide, rfl⟩

/-- C5 amended: a `Grep` request is only produced when a pattern operand
was supplied — a token list with no positional operand never yields a
`Grep` request (omission is a parse failure, or help/version), and the
pattern of every produced request is the first supplied operand; that
operand may however be the empty string. -/
theorem pattern_operand_required :
    (∀ tokens : List String, tokens.filter isPositional = [] →
       ∀ a : Args, parse tokens ≠ .ok (.Grep a)) ∧
    (∀ (tokens : List String) (a : Args), parse tokens = .ok (.Grep a) →
       (tokens.filter isPositional).head? = some a.pattern) := by
  constructor
  · intro tokens hemp a h
    obtain ⟨rest, h1, _⟩ := parse_grep_characterization tokens a h
    rw [hemp] at h1
    exact List.noConfusion h1
  · intro tokens a h
    obtain ⟨rest, h1, _⟩ := parse_grep_characterization tokens a h
    rw [h1]
    rfl

/-- C5 witness: the amended claim at the concrete flag-only token list
`-v`, which has no positional operand. -/
theorem pattern_operand_required_witness :
    parse ["-v"] ≠ .ok (.Grep (Args.mk ⟨false, false, .FileName⟩ "x" ["-"])) :=
  pattern_operand_required.1 ["-v"] (by decide) _

/-- C6: `parse` has exactly the four discriminated outcomes — help,
version, error, or a grep request; once a token prefix resolves without
halting, a help flag anywhere after it yields the help text and a
version flag yields the version text, regardless of what follows;
omitting the pattern and supplying an unrecognized flag are parse
errors with a message. -/
theorem parse_outcomes :
    (∀ tokens : List String,
       (∃ t, parse tokens = .ok (.Help t)) ∨
       (∃ t, parse tokens = .ok (.Version t)) ∨
       (∃ e, parse tokens = .error e) ∨
       (∃ a, parse tokens = .ok (.Grep a))) ∧
    (∀ (pre post : List String) (s : ParseState), runTokens pre initState = .ok s →
       parse (pre ++ "--help" :: post) = .ok (.Help usageText) ∧
       parse (pre ++ "-h" :: post) = .ok (.Help usageText)) ∧
    (∀ (pre post : List String) (s : ParseState), runTokens pre initState = .ok s →
       parse (pre ++ "--version" :: post) = .ok (.Version versionText)) ∧
    parse [] = .error ⟨missingPatternMsg⟩ ∧
    parse ["--frobnicate", "foo"] = .error ⟨unknownMsg "--frobnicate"⟩ := by
  refine ⟨?_, ?_, ?_, by decide, by decide⟩
  · intro tokens
    cases hg : get_matches_safe tokens with
    | error e =>
      cases e with
      | help => exact Or.inl ⟨usageText, by simp [parse, hg]⟩
      | version => exact Or.inr (Or.inl ⟨versionText, by simp [parse, hg]⟩)
      | fail msg => exact Or.inr (Or.inr (Or.inl ⟨⟨msg⟩, by simp [parse, hg]⟩))
    | ok m =>
      cases hb : build_args m with
      | none =>
        exact Or.inr (Or.inr (Or.inl ⟨⟨"<pattern> not in ArgMatches"⟩, by simp [parse, hg, hb]⟩))
      | some a => exact Or.inr (Or.inr (Or.inr ⟨a, by simp [parse, hg, hb]⟩))
  · intro pre post s hpre
    constructor
    · have h2 : runTokens (pre ++ "--help" :: post) initState = .error .help := by
        rw [runTokens_append pre ("--help" :: post) initState s hpre]
        have e : processToken s "--help" = .error .help := rfl
        simp only [runTokens, e]
      simp [parse, get_matches_safe, h2]
    · have h2 : runTokens (pre ++ "-h" :: post) initState = .error .help := by
        rw [runTokens_append pre ("-h" :: post) initState s hpre]
        have e : processToken s "-h" = .error .help := rfl
        simp only [runTokens, e]
      simp [parse, get_matches_safe, h2]
  · intro pre post s hpre
    have h2 : runTokens (pre ++ "--version" :: post) initState = .error .version := by
      rw [runTokens_append pre ("--version" :: post) initState s hpre]
      have e : processToken s "--version" = .error .version := rfl
      simp only [runTokens, e]
    simp [parse, get_matches_safe, h2]

/-- C6 witness: help requested after a valid `-v` prefix and before a
pattern operand yields the usage text. -/
theorem parse_outcomes_witness :
    parse (["-v"] ++ "--help" :: ["p"]) = .ok (.Help usageText) ∧
    parse (["-v"] ++ "-h" :: ["p"]) = .ok (.Help usageText) :=
  parse_outcomes.2.1 ["-v"] ["p"]
    ⟨⟨true, false, false, false, false, false⟩, []⟩ (by decide)

end Bgrep
